import Mathlib

/-!
Shallow embedding of `src/salary_ics.py` (justSmK/salary-ics).

The embedding covers the core of the program: the day classifier
(`classify_day` together with `normalize_text`), the non-working-date
set construction (`build_non_working_dates`), the coverage-aware
working-day predicate (`is_working_day`), the backward shifter
(`shift_to_previous_working_day`), the rule parser (`parse_rules`)
and the event generator (`make_salary_event`, `generate_salary_events`).

Python `datetime.date` values are modelled by a `Date` structure of
three natural numbers together with the proleptic Gregorian calendar
arithmetic used by CPython (`toordinal`, `weekday`, validity bounds
1 ≤ year ≤ 9999).  Python sets are modelled by `Finset`; the unbounded
`while` loop of the shifter is modelled with explicit fuel, `none`
standing for "no result" (non-termination of the loop, or stepping
below `date.min`, which raises `OverflowError` in Python).
-/

namespace SalaryIcs

/-- Day kinds produced by `classify_day` (its `None` result — a plain
working day — is modelled by `Option.none`). -/
inductive DayKind where
  | holiday
  | dayoff
  | shortened
deriving DecidableEq, Repr

/-- A calendar date, as in Python `datetime.date(year, month, day)`. -/
structure Date where
  year : Nat
  month : Nat
  day : Nat
deriving DecidableEq, Repr

/-- Gregorian leap-year rule (CPython `datetime._is_leap`). -/
def isLeap (y : Nat) : Bool :=
  y % 4 == 0 && (y % 100 != 0 || y % 400 == 0)

/-- Number of days in a month (CPython `datetime._days_in_month`). -/
def daysInMonth (y m : Nat) : Nat :=
  if m = 2 then (if isLeap y then 29 else 28)
  else if m = 4 ∨ m = 6 ∨ m = 9 ∨ m = 11 then 30
  else 31

/-- Days in the months strictly before month `m` of year `y`
(CPython `datetime._days_before_month`). -/
def daysBeforeMonth (y : Nat) : Nat → Nat
  | 0 => 0
  | 1 => 0
  | m + 2 => daysBeforeMonth y (m + 1) + daysInMonth y (m + 1)

/-- Days in the years strictly before year `y`
(CPython `datetime._days_before_year`). -/
def daysBeforeYear (y : Nat) : Nat :=
  (y - 1) * 365 + (y - 1) / 4 - (y - 1) / 100 + (y - 1) / 400

/-- Days in year `y`: 366 in a leap year, 365 otherwise. -/
def daysInYear (y : Nat) : Nat :=
  if isLeap y then 366 else 365

/-- Proleptic Gregorian ordinal of a date, as Python `date.toordinal()`;
`0001-01-01` has ordinal 1. -/
def toordinal (d : Date) : Nat :=
  daysBeforeYear d.year + daysBeforeMonth d.year d.month + d.day

/-- Python `date.weekday()`: 0 = Monday … 6 = Sunday. -/
def weekday (d : Date) : Nat :=
  (toordinal d + 6) % 7

/-- The bounds checked by the Python `date` constructor:
`MINYEAR = 1 ≤ year ≤ MAXYEAR = 9999`, `1 ≤ month ≤ 12`,
`1 ≤ day ≤ days in the month`. -/
def dateValid (d : Date) : Prop :=
  1 ≤ d.year ∧ d.year ≤ 9999 ∧ 1 ≤ d.month ∧ d.month ≤ 12 ∧
    1 ≤ d.day ∧ d.day ≤ daysInMonth d.year d.month

instance (d : Date) : Decidable (dateValid d) := by
  unfold dateValid
  exact inferInstance

/-- Fallible date construction: Python `date(y, m, d)`, which raises
`ValueError` on out-of-range components (modelled by `none`). -/
def mkDate? (y m d : Nat) : Option Date :=
  if dateValid ⟨y, m, d⟩ then some ⟨y, m, d⟩ else none

/-- `d - timedelta(days=1)`: the previous calendar day. -/
def predDate (d : Date) : Date :=
  if 2 ≤ d.day then ⟨d.year, d.month, d.day - 1⟩
  else if 2 ≤ d.month then ⟨d.year, d.month - 1, daysInMonth d.year (d.month - 1)⟩
  else ⟨d.year - 1, 12, 31⟩

/-- `d + timedelta(days=1)`: the next calendar day (used for `dtend`). -/
def succDate (d : Date) : Date :=
  if d.day < daysInMonth d.year d.month then ⟨d.year, d.month, d.day + 1⟩
  else if d.month < 12 then ⟨d.year, d.month + 1, 1⟩
  else ⟨d.year + 1, 1, 1⟩

/-- `datetime.date.min = date(1, 1, 1)`. -/
def epochDate : Date := ⟨1, 1, 1⟩

/-- `is_working_day(d, non_working, covered_years)` from the source:
with coverage the set is authoritative; without coverage Saturday and
Sunday (`weekday() >= 5`) are additionally non-working. -/
def is_working_day (d : Date) (non_working : Finset Date)
    (covered_years : Finset Nat) : Bool :=
  if d.year ∈ covered_years then
    decide (d ∉ non_working)
  else if 5 ≤ weekday d then
    false
  else
    decide (d ∉ non_working)

/-- The `while` loop of `shift_to_previous_working_day`, with explicit
fuel.  `none` models the loop not having produced a result: either the
fuel ran out (the Python loop would keep running) or the walk stepped
below `date.min` (Python raises `OverflowError`). -/
def shiftAux (non_working : Finset Date) (covered_years : Finset Nat) :
    Nat → Date → Option Date
  | 0, _ => none
  | fuel + 1, d =>
    if is_working_day d non_working covered_years then some d
    else if d = epochDate then none
    else shiftAux non_working covered_years fuel (predDate d)

/-- `shift_to_previous_working_day(d, non_working, covered_years)`,
fuelled. -/
def shift_to_previous_working_day (fuel : Nat) (d : Date)
    (non_working : Finset Date) (covered_years : Finset Nat) : Option Date :=
  shiftAux non_working covered_years fuel d

/-! ### Text normalization and the day classifier -/

/-- Python `str.strip()`: drop leading and trailing whitespace. -/
def pyStrip (l : List Char) : List Char :=
  ((l.dropWhile Char.isWhitespace).reverse.dropWhile Char.isWhitespace).reverse

/-- One pass of `re.sub(r"\s+", " ", ·)`: every maximal run of
whitespace becomes a single space.  The boolean records whether the
previous character belonged to a whitespace run. -/
def collapseAux : Bool → List Char → List Char
  | _, [] => []
  | prevWS, c :: cs =>
    if c.isWhitespace then
      if prevWS then collapseAux true cs
      else ' ' :: collapseAux true cs
    else c :: collapseAux false cs

/-- `normalize_text(s)` from the source:
`re.sub(r"\s+", " ", (s or "").strip())`. -/
def normalize_text (s : String) : String :=
  ⟨collapseAux false (pyStrip s.data)⟩

/-- Character-list version of Python `str.startswith`. -/
def startsWithChars : List Char → List Char → Bool
  | [], _ => true
  | _ :: _, [] => false
  | p :: ps, c :: cs => p == c && startsWithChars ps cs

/-- `s.startswith(p)` on strings. -/
def pyStartswith (s p : String) : Bool :=
  startsWithChars p.data s.data

/-- `classify_day(hint)` from the source: normalize, then classify by
textual prefix, pre-holiday marker first, then day-off marker with a
period, then the bare day-off marker. -/
def classify_day (hint : String) : Option DayKind :=
  if pyStartswith (normalize_text hint) "Предпраздничный день" then
    some DayKind.shortened
  else if pyStartswith (normalize_text hint) "Выходной день." then
    some DayKind.holiday
  else if pyStartswith (normalize_text hint) "Выходной день" then
    some DayKind.dayoff
  else
    none

/-- Reference classifier, written from the specification's words: after
collapsing whitespace runs to single spaces and trimming, a hint
starting with the pre-holiday marker is `shortened`; otherwise one
starting with the day-off marker immediately followed by a period is
`holiday`; otherwise one starting with the bare day-off marker is
`day-off`; anything else is a plain working day (no classification). -/
def spec_classify (hint : String) : Option DayKind :=
  if pyStartswith (normalize_text hint) "Предпраздничный день" then
    some DayKind.shortened
  else if pyStartswith (normalize_text hint) "Выходной день." then
    some DayKind.holiday
  else if pyStartswith (normalize_text hint) "Выходной день" then
    some DayKind.dayoff
  else
    none

/-! ### The non-working-date set -/

/-- One month's scraped data: a Python `dict[int, str]` from
day-of-month to classified kind, modelled as an association list
(a Python dict has no duplicate keys; where that matters the theorems
assume key uniqueness explicitly). -/
abbrev MonthMap := List (Nat × DayKind)

/-- One year's calendar: the per-month maps, January first. -/
abbrev YearCalendar := List MonthMap

/-- Loop body over one recorded day of `build_non_working_dates`:
only `holiday` and `dayoff` construct (and insert) a date; the date
constructor may fail. -/
def addDay (y m : Nat) (acc : Finset Date) (dk : Nat × DayKind) :
    Option (Finset Date) :=
  if dk.2 = DayKind.holiday ∨ dk.2 = DayKind.dayoff then
    (mkDate? y m dk.1).map (fun dt => insert dt acc)
  else
    some acc

/-- Loop over one month (`im.1` is the 1-based month number from
`enumerate(months, start=1)`). -/
def addMonth (y : Nat) (acc : Finset Date) (im : Nat × MonthMap) :
    Option (Finset Date) :=
  im.2.foldlM (addDay y im.1) acc

/-- Loop over one year entry of the mapping. -/
def addYear (acc : Finset Date) (ym : Nat × YearCalendar) :
    Option (Finset Date) :=
  (ym.2.enumFrom 1).foldlM (addMonth ym.1) acc

/-- `build_non_working_dates(months_by_year)` from the source. -/
def build_non_working_dates (months_by_year : List (Nat × YearCalendar)) :
    Option (Finset Date) :=
  months_by_year.foldlM addYear ∅

/-- A date is recorded with kind `k` when some year entry, at some
1-based month position, holds a day entry of kind `k` whose
(year, month position, day) triple constructs that date. -/
def RecordedWith (months_by_year : List (Nat × YearCalendar)) (x : Date)
    (k : DayKind) : Prop :=
  ∃ ym ∈ months_by_year, ∃ im ∈ ym.2.enumFrom 1, ∃ dk ∈ im.2,
    dk.2 = k ∧ mkDate? ym.1 im.1 dk.1 = some x

/-! ### The rule parser -/

/-- The two error kinds of `parse_rules`: `EmptyRuleSet` is the
`"rules string is empty"` `ValueError`, `MalformedRule` covers the
per-segment `ValueError`s. -/
inductive RuleError where
  | emptyRuleSet
  | malformedRule
deriving DecidableEq, Repr

/-- Python `str.split(sep)` on a single character: `""` yields `[""]`,
`";;"` yields `["", "", ""]`. -/
def splitOnChar (sep : Char) : List Char → List (List Char)
  | [] => [[]]
  | c :: cs =>
    if c = sep then [] :: splitOnChar sep cs
    else
      match splitOnChar sep cs with
      | [] => [[c]]
      | h :: t => (c :: h) :: t

/-- Python `str.isdigit` restricted to ASCII digits (the only digits
the rule grammar produces): nonempty and all characters `0`–`9`. -/
def pyIsdigit (l : List Char) : Bool :=
  !l.isEmpty && l.all (fun c => '0' ≤ c && c ≤ '9')

/-- `int(·)` on a string of ASCII digits. -/
def charsToNat (l : List Char) : Nat :=
  l.foldl (fun a c => 10 * a + (c.toNat - '0'.toNat)) 0

/-- `part.split(":", 1)[0].strip()`: the day portion of a segment. -/
def dayPortion (part : List Char) : List Char :=
  pyStrip (part.takeWhile (fun c => c ≠ ':'))

/-- `part.split(":", 1)[1].strip()`: the label portion of a segment
(everything after the first colon). -/
def labelPortion (part : List Char) : List Char :=
  pyStrip ((part.dropWhile (fun c => c ≠ ':')).drop 1)

/-- The per-segment body of the `parse_rules` loop: require a colon,
split at the first colon, strip both sides, require an integer day in
1–31 and a non-empty label. -/
def parseRulePart (part : List Char) : Except RuleError (Nat × String) :=
  if ':' ∈ part then
    if pyIsdigit (dayPortion part) then
      if charsToNat (dayPortion part) < 1 ∨ 31 < charsToNat (dayPortion part) then
        Except.error RuleError.malformedRule
      else if (labelPortion part).isEmpty then
        Except.error RuleError.malformedRule
      else
        Except.ok (charsToNat (dayPortion part), ⟨labelPortion part⟩)
    else
      Except.error RuleError.malformedRule
  else
    Except.error RuleError.malformedRule

/-- A defective rule segment, in the words of the specification: no
colon, or a day portion that is not a digit literal, or a day outside
1–31, or an empty label after trimming. -/
def partDefective (part : List Char) : Prop :=
  (¬ ':' ∈ part) ∨
    pyIsdigit (dayPortion part) = false ∨
    (charsToNat (dayPortion part) < 1 ∨ 31 < charsToNat (dayPortion part)) ∨
    (labelPortion part).isEmpty = true

/-- The `parse_rules` loop over the non-empty segments: first error
wins, otherwise the parsed pairs in input order. -/
def parseParts : List (List Char) → Except RuleError (List (Nat × String))
  | [] => Except.ok []
  | p :: ps =>
    match parseRulePart p with
    | Except.error e => Except.error e
    | Except.ok r =>
      match parseParts ps with
      | Except.error e => Except.error e
      | Except.ok rs => Except.ok (r :: rs)

/-- Stable insertion of a rule into a day-sorted rule list (helper for
the stable `rules.sort(key=day)`). -/
def insertSortedRule (r : Nat × String) :
    List (Nat × String) → List (Nat × String)
  | [] => [r]
  | x :: xs => if x.1 < r.1 then x :: insertSortedRule r xs else r :: x :: xs

/-- Stable sort by day-of-month, as Python `list.sort(key=day)`. -/
def sortRules : List (Nat × String) → List (Nat × String)
  | [] => []
  | r :: rs => insertSortedRule r (sortRules rs)

/-- The non-empty stripped segments of the stripped input,
`[p.strip() for p in rules_str.split(";") if p.strip()]`. -/
def ruleSegments (rules_str : String) : List (List Char) :=
  ((splitOnChar ';' (pyStrip rules_str.data)).map pyStrip).filter
    (fun p => !p.isEmpty)

/-- `parse_rules(rules_str)` from the source. -/
def parse_rules (rules_str : String) :
    Except RuleError (List (Nat × String)) :=
  if (pyStrip rules_str.data).isEmpty then
    Except.error RuleError.emptyRuleSet
  else
    match parseParts (ruleSegments rules_str) with
    | Except.error e => Except.error e
    | Except.ok rules => Except.ok (sortRules rules)

/-! ### Events and the generator -/

/-- `f"{n:02d}"` for a natural number. -/
def pad2 (n : Nat) : String :=
  if n < 10 then "0" ++ Nat.repr n else Nat.repr n

/-- Four-digit zero padding, as in `date.isoformat()`'s year field. -/
def pad4 (n : Nat) : String :=
  if n < 10 then "000" ++ Nat.repr n
  else if n < 100 then "00" ++ Nat.repr n
  else if n < 1000 then "0" ++ Nat.repr n
  else Nat.repr n

/-- `date.isoformat()`: `YYYY-MM-DD`. -/
def isoformat (d : Date) : String :=
  pad4 d.year ++ "-" ++ pad2 d.month ++ "-" ++ pad2 d.day

/-- ASCII letters and digits, the class kept by the UID sanitizer. -/
def isAsciiAlnum (c : Char) : Bool :=
  ('a' ≤ c && c ≤ 'z') || ('A' ≤ c && c ≤ 'Z') || ('0' ≤ c && c ≤ '9')

/-- `re.sub(r"[^a-zA-Z0-9]+", "-", ·)`: every maximal run of
non-alphanumeric characters becomes a single dash. -/
def dashCollapseAux : Bool → List Char → List Char
  | _, [] => []
  | prevRun, c :: cs =>
    if isAsciiAlnum c then c :: dashCollapseAux false cs
    else if prevRun then dashCollapseAux true cs
    else '-' :: dashCollapseAux true cs

/-- Python `str.strip("-")`. -/
def stripDashes (l : List Char) : List Char :=
  ((l.dropWhile (fun c => c = '-')).reverse.dropWhile (fun c => c = '-')).reverse

/-- The `safe` value of `make_salary_event`:
`re.sub(r"[^a-zA-Z0-9]+", "-", summary).strip("-").lower() or "event"`. -/
def sanitizeSummary (summary : String) : String :=
  let safe := (stripDashes (dashCollapseAux false summary.data)).map Char.toLower
  if safe.isEmpty then "event" else ⟨safe⟩

/-- The UID string of `make_salary_event`:
`f"ru-salary-{base_year}{base_month:02d}{base_day:02d}-{safe}@salary-ics"`. -/
def make_uid (base_year base_month base_day : Nat) (summary : String) :
    String :=
  "ru-salary-" ++ Nat.repr base_year ++ pad2 base_month ++ pad2 base_day ++
    "-" ++ sanitizeSummary summary ++ "@salary-ics"

/-- The fields of the produced `icalendar` event that the core sets
(the `dtstamp` wall-clock timestamp is impure and not modelled). -/
structure SEvent where
  summary : String
  dtstart : Date
  dtend : Date
  uid : String
  description : Option String
deriving DecidableEq, Repr

/-- `make_salary_event(base_year, base_month, base_day, actual_day,
summary)` from the source. -/
def make_salary_event (base_year base_month base_day : Nat)
    (actual_day : Date) (summary : String) : SEvent :=
  { summary := summary
    dtstart := actual_day
    dtend := succDate actual_day
    uid := make_uid base_year base_month base_day summary
    description :=
      if actual_day ≠ ⟨base_year, base_month, base_day⟩ then
        some ("Shifted from " ++ isoformat ⟨base_year, base_month, base_day⟩ ++
          " to " ++ isoformat actual_day ++ " (non-working day).")
      else
        none }

/-- The (month, day, label) combinations visited by the nested loops of
`generate_salary_events`, in visit order. -/
def monthRulePairs (rules : List (Nat × String)) : List (Nat × Nat × String) :=
  (List.range' 1 12).flatMap (fun month => rules.map (fun r => (month, r.1, r.2)))

/-- One (month, rule) combination: an invalid date is skipped
(`some []`), otherwise the intended date is shifted (the fuelled shift
may fail to produce a result: `none`). -/
def genPair (fuel year : Nat) (nw : Finset Date) (cov : Finset Nat)
    (p : Nat × Nat × String) : Option (List SEvent) :=
  match mkDate? year p.1 p.2.1 with
  | none => some []
  | some base =>
    match shiftAux nw cov fuel base with
    | none => none
    | some actual => some [make_salary_event year p.1 p.2.1 actual p.2.2]

/-- The event accumulation of `generate_salary_events`. -/
def collectEvents (fuel year : Nat) (nw : Finset Date) (cov : Finset Nat) :
    List (Nat × Nat × String) → Option (List SEvent)
  | [] => some []
  | p :: ps =>
    match genPair fuel year nw cov p with
    | none => none
    | some es =>
      match collectEvents fuel year nw cov ps with
      | none => none
      | some rest => some (es ++ rest)

/-- `generate_salary_events(year, non_working, covered_years, rules)`
from the source, fuelled through the shifter. -/
def generate_salary_events (fuel year : Nat) (nw : Finset Date)
    (cov : Finset Nat) (rules : List (Nat × String)) :
    Option (List SEvent) :=
  collectEvents fuel year nw cov (monthRulePairs rules)

/-- The part of a rule that the UID depends on: its day-of-month and
its sanitized label. -/
def ruleKey (r : Nat × String) : Nat × String :=
  (r.1, sanitizeSummary r.2)

/-- The UID that a (month, day, label) combination receives. -/
def pairUid (year : Nat) (p : Nat × Nat × String) : String :=
  make_uid year p.1 p.2.1 p.2.2

/-! ### Calendar arithmetic lemmas -/

theorem daysInMonth_pos (y m : Nat) : 1 ≤ daysInMonth y m := by
  unfold daysInMonth
  split
  · split <;> omega
  · split <;> omega

theorem daysInMonth_le (y m : Nat) : daysInMonth y m ≤ 31 := by
  unfold daysInMonth
  split
  · split <;> omega
  · split <;> omega

theorem daysBeforeMonth_succ (y m : Nat) (hm : 1 ≤ m) :
    daysBeforeMonth y (m + 1) = daysBeforeMonth y m + daysInMonth y m := by
  match m, hm with
  | m + 1, _ => rfl

theorem daysBeforeMonth_le_add (y m : Nat) :
    ∀ k, daysBeforeMonth y m ≤ daysBeforeMonth y (m + k)
  | 0 => le_refl _
  | k + 1 => by
    rcases Nat.eq_zero_or_pos (m + k) with h0 | hpos
    · have hm : m = 0 := by omega
      have hk : k = 0 := by omega
      subst hm
      subst hk
      simp [daysBeforeMonth]
    · have ih := daysBeforeMonth_le_add y m k
      rw [show m + (k + 1) = (m + k) + 1 by omega,
        daysBeforeMonth_succ y (m + k) hpos]
      omega

theorem daysBeforeMonth_mono (y : Nat) {m n : Nat} (h : m ≤ n) :
    daysBeforeMonth y m ≤ daysBeforeMonth y n := by
  have := daysBeforeMonth_le_add y m (n - m)
  rwa [show m + (n - m) = n by omega] at this

theorem daysBeforeMonth_13 (y : Nat) :
    daysBeforeMonth y 13 = daysInYear y := by
  have e2 := daysBeforeMonth_succ y 2 (by omega)
  have e3 := daysBeforeMonth_succ y 3 (by omega)
  have e4 := daysBeforeMonth_succ y 4 (by omega)
  have e5 := daysBeforeMonth_succ y 5 (by omega)
  have e6 := daysBeforeMonth_succ y 6 (by omega)
  have e7 := daysBeforeMonth_succ y 7 (by omega)
  have e8 := daysBeforeMonth_succ y 8 (by omega)
  have e9 := daysBeforeMonth_succ y 9 (by omega)
  have e10 := daysBeforeMonth_succ y 10 (by omega)
  have e11 := daysBeforeMonth_succ y 11 (by omega)
  have e12 := daysBeforeMonth_succ y 12 (by omega)
  norm_num at e2 e3 e4 e5 e6 e7 e8 e9 e10 e11 e12
  have b1 : daysBeforeMonth y 2 = daysBeforeMonth y 1 + daysInMonth y 1 :=
    daysBeforeMonth_succ y 1 (by omega)
  have b0 : daysBeforeMonth y 1 = 0 := rfl
  have d1 : daysInMonth y 1 = 31 := by norm_num [daysInMonth]
  have d3 : daysInMonth y 3 = 31 := by norm_num [daysInMonth]
  have d4 : daysInMonth y 4 = 30 := by norm_num [daysInMonth]
  have d5 : daysInMonth y 5 = 31 := by norm_num [daysInMonth]
  have d6 : daysInMonth y 6 = 30 := by norm_num [daysInMonth]
  have d7 : daysInMonth y 7 = 31 := by norm_num [daysInMonth]
  have d8 : daysInMonth y 8 = 31 := by norm_num [daysInMonth]
  have d9 : daysInMonth y 9 = 30 := by norm_num [daysInMonth]
  have d10 : daysInMonth y 10 = 31 := by norm_num [daysInMonth]
  have d11 : daysInMonth y 11 = 30 := by norm_num [daysInMonth]
  have d12 : daysInMonth y 12 = 31 := by norm_num [daysInMonth]
  unfold daysInYear
  rcases h : isLeap y
  · have d2 : daysInMonth y 2 = 28 := by norm_num [daysInMonth, h]
    simp only [Bool.false_eq_true, if_false]
    omega
  · have d2 : daysInMonth y 2 = 29 := by norm_num [daysInMonth, h]
    simp only [if_true]
    omega

theorem isLeap_iff (y : Nat) :
    isLeap y = true ↔ (y % 4 = 0 ∧ (y % 100 ≠ 0 ∨ y % 400 = 0)) := by
  simp [isLeap, Bool.and_eq_true, Bool.or_eq_true]

set_option maxHeartbeats 1000000 in
theorem daysBeforeYear_succ (y : Nat) (hy : 1 ≤ y) :
    daysBeforeYear (y + 1) = daysBeforeYear y + daysInYear y := by
  obtain ⟨a, rfl⟩ : ∃ a, y = a + 1 := ⟨y - 1, by omega⟩
  have hleap := isLeap_iff (a + 1)
  unfold daysBeforeYear daysInYear
  simp only [Nat.add_sub_cancel]
  rcases h : isLeap (a + 1)
  · rw [h] at hleap
    simp only [Bool.false_eq_true, false_iff] at hleap
    simp only [Bool.false_eq_true, if_false]
    omega
  · rw [h] at hleap
    simp only [true_iff] at hleap
    simp only [if_true]
    omega

theorem daysBeforeYear_le_add (a : Nat) (h1 : 1 ≤ a) :
    ∀ k, daysBeforeYear a ≤ daysBeforeYear (a + k)
  | 0 => le_refl _
  | k + 1 => by
    have ih := daysBeforeYear_le_add a h1 k
    have hs := daysBeforeYear_succ (a + k) (by omega)
    rw [show a + (k + 1) = (a + k) + 1 by omega]
    unfold daysInYear at hs
    split at hs <;> omega

theorem daysBeforeYear_mono {a b : Nat} (h1 : 1 ≤ a) (h : a ≤ b) :
    daysBeforeYear a ≤ daysBeforeYear b := by
  have := daysBeforeYear_le_add a h1 (b - a)
  rwa [show a + (b - a) = b by omega] at this

theorem daysBeforeYear_gap {a b : Nat} (h1 : 1 ≤ a) (h : a < b) :
    daysBeforeYear a + daysInYear a ≤ daysBeforeYear b := by
  have h2 : a + 1 ≤ b := h
  calc daysBeforeYear a + daysInYear a = daysBeforeYear (a + 1) :=
        (daysBeforeYear_succ a h1).symm
    _ ≤ daysBeforeYear b := daysBeforeYear_mono (by omega) h2

/-- Within its year, a valid date's ordinal lies strictly above the
days-before-year count and at most one year's length beyond it. -/
theorem toordinal_year_bounds {d : Date} (h : dateValid d) :
    daysBeforeYear d.year < toordinal d ∧
      toordinal d ≤ daysBeforeYear d.year + daysInYear d.year := by
  obtain ⟨h1, h2, h3, h4, h5, h6⟩ := h
  constructor
  · unfold toordinal
    omega
  · unfold toordinal
    have hstep : daysBeforeMonth d.year d.month + d.day ≤
        daysBeforeMonth d.year (d.month + 1) := by
      rw [daysBeforeMonth_succ d.year d.month h3]
      omega
    have hmono : daysBeforeMonth d.year (d.month + 1) ≤
        daysBeforeMonth d.year 13 := daysBeforeMonth_mono d.year (by omega)
    have h13 := daysBeforeMonth_13 d.year
    omega

theorem toordinal_pos {d : Date} (h : dateValid d) : 1 ≤ toordinal d := by
  unfold toordinal
  obtain ⟨_, _, _, _, h5, _⟩ := h
  omega

/-- A strictly smaller year means a strictly smaller ordinal, on valid
dates. -/
theorem toordinal_lt_of_year_lt {d e : Date} (hd : dateValid d)
    (he : dateValid e) (h : d.year < e.year) : toordinal d < toordinal e := by
  have hb1 := (toordinal_year_bounds hd).2
  have hb2 := (toordinal_year_bounds he).1
  have hgap := daysBeforeYear_gap hd.1 h
  omega

/-- Same year, strictly smaller month: strictly smaller ordinal. -/
theorem toordinal_lt_of_month_lt {d e : Date} (hd : dateValid d)
    (he : dateValid e) (hy : d.year = e.year) (h : d.month < e.month) :
    toordinal d < toordinal e := by
  obtain ⟨hd1, hd2, hd3, hd4, hd5, hd6⟩ := hd
  obtain ⟨he1, he2, he3, he4, he5, he6⟩ := he
  have hstep : daysBeforeMonth d.year d.month + d.day ≤
      daysBeforeMonth d.year (d.month + 1) := by
    rw [daysBeforeMonth_succ d.year d.month hd3]
    omega
  have hmono : daysBeforeMonth d.year (d.month + 1) ≤
      daysBeforeMonth d.year e.month := daysBeforeMonth_mono d.year (by omega)
  unfold toordinal
  rw [hy] at hstep hmono ⊢
  omega

/-- `toordinal` is injective on valid dates. -/
theorem toordinal_injOn {d e : Date} (hd : dateValid d) (he : dateValid e)
    (h : toordinal d = toordinal e) : d = e := by
  have hyear : d.year = e.year := by
    by_contra hne
    rcases Nat.lt_or_ge d.year e.year with hlt | hge
    · have := toordinal_lt_of_year_lt hd he hlt
      omega
    · have := toordinal_lt_of_year_lt he hd (by omega)
      omega
  have hmonth : d.month = e.month := by
    by_contra hne
    rcases Nat.lt_or_ge d.month e.month with hlt | hge
    · have := toordinal_lt_of_month_lt hd he hyear hlt
      omega
    · have := toordinal_lt_of_month_lt he hd hyear.symm (by omega)
      omega
  have hday : d.day = e.day := by
    have : toordinal d = toordinal e := h
    unfold toordinal at this
    rw [hyear, hmonth] at this
    omega
  cases d
  cases e
  simp_all

theorem dateValid_mk {y m d : Nat} :
    dateValid ⟨y, m, d⟩ ↔
      1 ≤ y ∧ y ≤ 9999 ∧ 1 ≤ m ∧ m ≤ 12 ∧ 1 ≤ d ∧ d ≤ daysInMonth y m :=
  Iff.rfl

theorem toordinal_mk {y m d : Nat} :
    toordinal ⟨y, m, d⟩ = daysBeforeYear y + daysBeforeMonth y m + d :=
  rfl

/-- Stepping back one day from a valid date other than `0001-01-01`
yields a valid date with ordinal exactly one less. -/
theorem predDate_spec {d : Date} (h : dateValid d) (hne : d ≠ epochDate) :
    dateValid (predDate d) ∧ toordinal (predDate d) + 1 = toordinal d := by
  obtain ⟨y, m, dd⟩ := d
  rw [dateValid_mk] at h
  obtain ⟨h1, h2, h3, h4, h5, h6⟩ := h
  have hne' : ¬(y = 1 ∧ m = 1 ∧ dd = 1) := by
    rintro ⟨rfl, rfl, rfl⟩
    exact hne rfl
  unfold predDate
  dsimp only
  by_cases hday : 2 ≤ dd
  · rw [if_pos hday]
    refine ⟨?_, ?_⟩
    · rw [dateValid_mk]
      exact ⟨h1, h2, h3, h4, by omega, by omega⟩
    · rw [toordinal_mk, toordinal_mk]
      omega
  · rw [if_neg hday]
    have hday1 : dd = 1 := by omega
    by_cases hmon : 2 ≤ m
    · rw [if_pos hmon]
      have hstep := daysBeforeMonth_succ y (m - 1) (by omega)
      rw [show m - 1 + 1 = m by omega] at hstep
      refine ⟨?_, ?_⟩
      · rw [dateValid_mk]
        exact ⟨h1, h2, by omega, by omega, daysInMonth_pos _ _, le_refl _⟩
      · rw [toordinal_mk, toordinal_mk]
        omega
    · have hmon1 : m = 1 := by omega
      have hy2 : 2 ≤ y := by omega
      rw [if_neg hmon]
      have hstep := daysBeforeYear_succ (y - 1) (by omega)
      rw [show y - 1 + 1 = y by omega] at hstep
      have h13 := daysBeforeMonth_13 (y - 1)
      have h12 : daysBeforeMonth (y - 1) 13 =
          daysBeforeMonth (y - 1) 12 + daysInMonth (y - 1) 12 := by
        have := daysBeforeMonth_succ (y - 1) 12 (by omega)
        norm_num at this
        exact this
      have h31 : daysInMonth (y - 1) 12 = 31 := by
        norm_num [daysInMonth]
      refine ⟨?_, ?_⟩
      · rw [dateValid_mk]
        refine ⟨by omega, by omega, by omega, by omega, by omega, ?_⟩
        rw [h31]
      · rw [toordinal_mk, toordinal_mk]
        have hzero : daysBeforeMonth y 1 = 0 := rfl
        rw [hday1, hmon1]
        omega

/-- A valid date with ordinal 1 is `0001-01-01`. -/
theorem eq_epoch_of_toordinal_eq_one {d : Date} (h : dateValid d)
    (h1 : toordinal d = 1) : d = epochDate := by
  have hepochValid : dateValid epochDate := by decide
  have hepochOrd : toordinal epochDate = 1 := by decide
  exact toordinal_injOn h hepochValid (by omega)

/-! ### Behaviour of the backward shifter -/

/-- Whenever the fuelled shifter loop returns a date, that date is
valid, not later than the start date, a working day, every valid date
strictly between the two is non-working, and a working start date is
returned unchanged. -/
theorem shiftAux_spec (nw : Finset Date) (cov : Finset Nat) :
    ∀ (fuel : Nat) (d r : Date), dateValid d →
      shiftAux nw cov fuel d = some r →
      dateValid r ∧ toordinal r ≤ toordinal d ∧
        is_working_day r nw cov = true ∧
        (∀ e, dateValid e → toordinal r < toordinal e →
          toordinal e < toordinal d → is_working_day e nw cov = false) ∧
        (is_working_day d nw cov = true → r = d)
  | 0, d, r => by
    intro _ h
    simp [shiftAux] at h
  | fuel + 1, d, r => by
    intro hd h
    cases hw : is_working_day d nw cov with
    | true =>
      rw [shiftAux, hw, if_pos rfl] at h
      obtain rfl : d = r := Option.some.inj h
      exact ⟨hd, le_refl _, hw, fun e _ h1 h2 => by omega, fun _ => rfl⟩
    | false =>
      rw [shiftAux, hw] at h
      simp only [Bool.false_eq_true, if_false] at h
      by_cases hd0 : d = epochDate
      · rw [if_pos hd0] at h
        cases h
      · rw [if_neg hd0] at h
        obtain ⟨hpv, hpo⟩ := predDate_spec hd hd0
        obtain ⟨ih1, ih2, ih3, ih4, ih5⟩ :=
          shiftAux_spec nw cov fuel (predDate d) r hpv h
        refine ⟨ih1, by omega, ih3, ?_, ?_⟩
        · intro e he h1 h2
          rcases Nat.lt_or_ge (toordinal e) (toordinal (predDate d)) with
            hlt | hge
          · exact ih4 e he h1 hlt
          · have heq : toordinal e = toordinal (predDate d) := by omega
            have hepd : e = predDate d := toordinal_injOn he hpv heq
            cases hw2 : is_working_day (predDate d) nw cov with
            | true =>
              have hrp : r = predDate d := ih5 hw2
              exfalso
              rw [hrp, hepd] at h1
              omega
            | false =>
              rw [hepd]
              exact hw2
        · intro hcontra
          cases hcontra

/-- Under the precondition that a working day exists at or before the
start date, enough fuel makes the shifter loop return. -/
theorem shiftAux_terminates (nw : Finset Date) (cov : Finset Nat) :
    ∀ (k : Nat) (d : Date), dateValid d →
      (∃ e, dateValid e ∧ is_working_day e nw cov = true ∧
        toordinal e ≤ toordinal d ∧ toordinal d - toordinal e ≤ k) →
      ∃ r, shiftAux nw cov (k + 1) d = some r
  | 0, d => by
    rintro hd ⟨e, he, hw, hle, hdiff⟩
    have hev : toordinal e = toordinal d := by
      have := toordinal_pos he
      omega
    have : e = d := toordinal_injOn he hd hev
    subst this
    refine ⟨e, ?_⟩
    rw [shiftAux, hw, if_pos rfl]
  | k + 1, d => by
    rintro hd ⟨e, he, hw, hle, hdiff⟩
    cases hwd : is_working_day d nw cov with
    | true =>
      refine ⟨d, ?_⟩
      rw [shiftAux, hwd, if_pos rfl]
    | false =>
      have hne : toordinal e ≠ toordinal d := by
        intro heq
        have : e = d := toordinal_injOn he hd heq
        subst this
        rw [hw] at hwd
        cases hwd
      have hlt : toordinal e < toordinal d := by omega
      have hd0 : d ≠ epochDate := by
        intro hdd
        subst hdd
        have : toordinal epochDate = 1 := by decide
        have := toordinal_pos he
        omega
      obtain ⟨hpv, hpo⟩ := predDate_spec hd hd0
      obtain ⟨r, hr⟩ := shiftAux_terminates nw cov k (predDate d) hpv
        ⟨e, he, hw, by omega, by omega⟩
      refine ⟨r, ?_⟩
      rw [shiftAux, hwd]
      simp only [Bool.false_eq_true, if_false]
      rw [if_neg hd0]
      exact hr

/-! ### Claim theorems: working-day predicate and shifter -/

/-- Claim C1: for a date whose year has calendar coverage, working
means exactly "not in the non-working set" (weekday plays no role);
for a date whose year lacks coverage, working means exactly "weekday
is Monday–Friday and not in the non-working set". -/
theorem C1_is_working_day (d : Date) (non_working : Finset Date)
    (covered_years : Finset Nat) :
    (d.year ∈ covered_years →
      (is_working_day d non_working covered_years = true ↔
        d ∉ non_working)) ∧
    (d.year ∉ covered_years →
      (is_working_day d non_working covered_years = true ↔
        weekday d < 5 ∧ d ∉ non_working)) := by
  constructor
  · intro hcov
    unfold is_working_day
    rw [if_pos hcov]
    simp
  · intro hcov
    unfold is_working_day
    rw [if_neg hcov]
    by_cases hw : 5 ≤ weekday d
    · rw [if_pos hw]
      simp only [Bool.false_eq_true, false_iff]
      intro hc
      omega
    · rw [if_neg hw]
      simp only [decide_eq_true_eq]
      constructor
      · intro hmem
        exact ⟨by omega, hmem⟩
      · intro ⟨_, hmem⟩
        exact hmem

/-- Witness for C1 at concrete inputs: 2024-01-06 (a Saturday) with
coverage of 2024 is working when absent from the set; 2025-01-06 (a
Monday) without coverage is working iff its weekday is below 5 and it
is absent from the set. -/
theorem C1_is_working_day_witness :
    ((is_working_day ⟨2024, 1, 6⟩ ∅ {2024} = true ↔
        (⟨2024, 1, 6⟩ : Date) ∉ (∅ : Finset Date)) ∧
     (is_working_day ⟨2025, 1, 6⟩ ∅ ∅ = true ↔
        weekday ⟨2025, 1, 6⟩ < 5 ∧ (⟨2025, 1, 6⟩ : Date) ∉ (∅ : Finset Date))) :=
  ⟨(C1_is_working_day ⟨2024, 1, 6⟩ ∅ {2024}).1 (by decide),
   (C1_is_working_day ⟨2025, 1, 6⟩ ∅ ∅).2 (by decide)⟩

/-- Claim C2: whenever the shifter returns a result it is the nearest
working day at or before the start date: not later than the start
date, itself working, with every valid date strictly in between
non-working; and a working start date is returned unchanged. -/
theorem C2_shift_nearest (fuel : Nat) (d r : Date) (non_working : Finset Date)
    (covered_years : Finset Nat) (hd : dateValid d)
    (h : shift_to_previous_working_day fuel d non_working covered_years =
      some r) :
    toordinal r ≤ toordinal d ∧
      is_working_day r non_working covered_years = true ∧
      (∀ e, dateValid e → toordinal r < toordinal e →
        toordinal e < toordinal d →
        is_working_day e non_working covered_years = false) ∧
      (is_working_day d non_working covered_years = true → r = d) := by
  obtain ⟨_, h2, h3, h4, h5⟩ := shiftAux_spec non_working covered_years fuel d r hd h
  exact ⟨h2, h3, h4, h5⟩

/-- Witness for C2 at a concrete input: shifting 2024-01-08 with an
empty non-working set returns it unchanged and the returned day
satisfies all the shift guarantees. -/
theorem C2_shift_nearest_witness :
    ∃ r, shift_to_previous_working_day 1 ⟨2024, 1, 8⟩ ∅ {2024} = some r ∧
      (toordinal r ≤ toordinal ⟨2024, 1, 8⟩ ∧
        is_working_day r ∅ {2024} = true ∧
        (∀ e, dateValid e → toordinal r < toordinal e →
          toordinal e < toordinal ⟨2024, 1, 8⟩ →
          is_working_day e ∅ {2024} = false) ∧
        (is_working_day ⟨2024, 1, 8⟩ ∅ {2024} = true → r = ⟨2024, 1, 8⟩)) :=
  ⟨⟨2024, 1, 8⟩, by decide,
    C2_shift_nearest 1 ⟨2024, 1, 8⟩ ⟨2024, 1, 8⟩ ∅ {2024} (by decide)
      (by decide)⟩

/-- Claim C9: the backward walk terminates whenever some valid working
day exists at or before the start date: some fuel suffices for the
fuelled loop to return a result. -/
theorem C9_shift_terminates (d : Date) (non_working : Finset Date)
    (covered_years : Finset Nat) (hd : dateValid d)
    (hex : ∃ e, dateValid e ∧ is_working_day e non_working covered_years = true ∧
      toordinal e ≤ toordinal d) :
    ∃ fuel r,
      shift_to_previous_working_day fuel d non_working covered_years =
        some r := by
  obtain ⟨e, he, hw, hle⟩ := hex
  obtain ⟨r, hr⟩ := shiftAux_terminates non_working covered_years
    (toordinal d - toordinal e) d hd ⟨e, he, hw, hle, le_refl _⟩
  exact ⟨toordinal d - toordinal e + 1, r, hr⟩

/-- Witness for C9 at a concrete input: 2024-01-08 itself non-working,
with 2024-01-07 working below it. -/
theorem C9_shift_terminates_witness :
    ∃ fuel r,
      shift_to_previous_working_day fuel ⟨2024, 1, 8⟩ {⟨2024, 1, 8⟩} {2024} =
        some r :=
  C9_shift_terminates ⟨2024, 1, 8⟩ {⟨2024, 1, 8⟩} {2024} (by decide)
    ⟨⟨2024, 1, 7⟩, by decide, by decide, by decide⟩

/-! ### Theorems about the day classifier -/

/-- Two patterns with different head characters cannot both be
prefixes of the same character list. -/
theorem startsWithChars_false_of_head_ne {a b : Char} (hne : a ≠ b)
    (p q l : List Char) (h : startsWithChars (a :: p) l = true) :
    startsWithChars (b :: q) l = false := by
  cases l with
  | nil => simp [startsWithChars] at h
  | cons c cs =>
    simp only [startsWithChars, Bool.and_eq_true, beq_iff_eq] at h
    have hbc : b ≠ c := fun hb => hne (by rw [h.1, hb])
    simp [startsWithChars, hbc]

/-- Claim C7: the source classifier agrees with the reference
classifier on every hint, and any hint whose normalization carries the
day-off-with-period pattern is classified `holiday`, never `day-off`. -/
theorem C7_classify_day (hint : String) :
    classify_day hint = spec_classify hint ∧
    (pyStartswith (normalize_text hint) "Выходной день." = true →
      classify_day hint = some DayKind.holiday) := by
  refine ⟨rfl, ?_⟩
  intro hstart
  have hne : pyStartswith (normalize_text hint) "Предпраздничный день" = false := by
    unfold pyStartswith at hstart ⊢
    have hB : ("Выходной день." : String).data =
        'В' :: ("ыходной день." : String).data := rfl
    have hP : ("Предпраздничный день" : String).data =
        'П' :: ("редпраздничный день" : String).data := rfl
    rw [hB] at hstart
    rw [hP]
    exact startsWithChars_false_of_head_ne (by decide) _ _ _ hstart
  unfold classify_day
  rw [hne]
  simp only [Bool.false_eq_true, if_false]
  rw [hstart]
  simp only [if_true]

/-- Witness for C7 at a concrete hint carrying the
day-off-with-period pattern. -/
theorem C7_classify_day_witness :
    classify_day "Выходной день. Новый год" =
      spec_classify "Выходной день. Новый год" ∧
    classify_day "Выходной день. Новый год" = some DayKind.holiday :=
  ⟨(C7_classify_day "Выходной день. Новый год").1,
   (C7_classify_day "Выходной день. Новый год").2 (by decide)⟩

/-! ### Theorems about the rule parser -/

theorem parseRulePart_ne_emptyRuleSet (p : List Char) :
    parseRulePart p ≠ Except.error RuleError.emptyRuleSet := by
  unfold parseRulePart
  split
  · split
    · split
      · simp
      · split <;> simp
    · simp
  · simp

theorem parseRulePart_error_iff (p : List Char) :
    parseRulePart p = Except.error RuleError.malformedRule ↔
      partDefective p := by
  unfold parseRulePart partDefective
  by_cases h1 : ':' ∈ p
  · rw [if_pos h1]
    cases h2 : pyIsdigit (dayPortion p) with
    | false => simp [h1, h2]
    | true =>
      simp only [h2, if_true]
      by_cases h3 : charsToNat (dayPortion p) < 1 ∨ 31 < charsToNat (dayPortion p)
      · rw [if_pos h3]
        simp [h1, h2, h3]
        exact Or.inl (by omega)
      · rw [if_neg h3]
        by_cases h4 : (labelPortion p).isEmpty = true
        · rw [if_pos h4]
          simp [h1, h2, h3, h4]
        · rw [if_neg h4]
          have h4' : (labelPortion p).isEmpty = false := by
            revert h4
            cases (labelPortion p).isEmpty <;> simp
          simp [h1, h2, h3, h4']
          omega
  · rw [if_neg h1]
    simp [h1]

theorem parseParts_ne_emptyRuleSet :
    ∀ ps, parseParts ps ≠ Except.error RuleError.emptyRuleSet
  | [] => by simp [parseParts]
  | p :: ps => by
    cases h : parseRulePart p with
    | error e =>
      cases e
      · exact absurd h (parseRulePart_ne_emptyRuleSet p)
      · simp [parseParts, h]
    | ok r =>
      cases h2 : parseParts ps with
      | error e2 =>
        cases e2
        · exact absurd h2 (parseParts_ne_emptyRuleSet ps)
        · simp [parseParts, h, h2]
      | ok rs => simp [parseParts, h, h2]

theorem parseParts_error_iff :
    ∀ ps, (parseParts ps = Except.error RuleError.malformedRule ↔
      ∃ p ∈ ps, partDefective p)
  | [] => by simp [parseParts]
  | p :: ps => by
    have ih := parseParts_error_iff ps
    cases h : parseRulePart p with
    | error e =>
      cases e
      · exact absurd h (parseRulePart_ne_emptyRuleSet p)
      · simp only [parseParts, h]
        constructor
        · intro _
          exact ⟨p, List.mem_cons_self p ps, (parseRulePart_error_iff p).mp h⟩
        · intro _
          trivial
    | ok r =>
      cases h2 : parseParts ps with
      | error e2 =>
        cases e2
        · exact absurd h2 (parseParts_ne_emptyRuleSet ps)
        · simp only [parseParts, h, h2]
          constructor
          · intro _
            obtain ⟨q, hq, hdef⟩ := ih.mp h2
            exact ⟨q, List.mem_cons_of_mem p hq, hdef⟩
          · intro _
            trivial
      | ok rs =>
        simp only [parseParts, h, h2]
        constructor
        · intro hcon
          cases hcon
        · rintro ⟨q, hq, hdef⟩
          rcases List.mem_cons.mp hq with rfl | hmem
          · have := (parseRulePart_error_iff q).mpr hdef
            rw [h] at this
            cases this
          · have := ih.mpr ⟨q, hmem, hdef⟩
            rw [h2] at this
            cases this

/-- Claim C5 (amended): `parse_rules` raises `EmptyRuleSet` exactly on
an empty or whitespace-only input; it raises `MalformedRule` exactly
when the input is nonempty after stripping and some non-empty segment
is defective (no colon, non-digit day, day outside 1–31, or empty
label); on every other input — including inputs such as `";;"` whose
segments are all empty — it returns normally. -/
theorem C5_parse_rules_errors (s : String) :
    (parse_rules s = Except.error RuleError.emptyRuleSet ↔
      (pyStrip s.data).isEmpty = true) ∧
    (parse_rules s = Except.error RuleError.malformedRule ↔
      ((pyStrip s.data).isEmpty = false ∧
        ∃ p ∈ ruleSegments s, partDefective p)) ∧
    ((∃ r, parse_rules s = Except.ok r) ↔
      ((pyStrip s.data).isEmpty = false ∧
        ∀ p ∈ ruleSegments s, ¬ partDefective p)) := by
  unfold parse_rules
  by_cases hs : (pyStrip s.data).isEmpty = true
  · rw [if_pos hs]
    exact ⟨by simp [hs], by simp [hs], by simp [hs]⟩
  · rw [if_neg hs]
    have hs' : (pyStrip s.data).isEmpty = false := by
      revert hs
      cases (pyStrip s.data).isEmpty <;> simp
    cases h2 : parseParts (ruleSegments s) with
    | error e =>
      cases e
      · exact absurd h2 (parseParts_ne_emptyRuleSet _)
      · simp only [h2]
        refine ⟨by simp [hs'], ?_, ?_⟩
        · constructor
          · intro _
            exact ⟨hs', (parseParts_error_iff _).mp h2⟩
          · intro _
            trivial
        · constructor
          · rintro ⟨r, hr⟩
            cases hr
          · rintro ⟨_, hall⟩
            obtain ⟨q, hq, hdef⟩ := (parseParts_error_iff _).mp h2
            exact absurd hdef (hall q hq)
    | ok rs =>
      simp only [h2]
      refine ⟨by simp [hs'], ?_, ?_⟩
      · constructor
        · intro hcon
          cases hcon
        · rintro ⟨_, hex⟩
          have := (parseParts_error_iff _).mpr hex
          rw [h2] at this
          cases this
      · constructor
        · intro _
          refine ⟨hs', fun q hq hdef => ?_⟩
          have := (parseParts_error_iff _).mpr ⟨q, hq, hdef⟩
          rw [h2] at this
          cases this
        · intro _
          exact ⟨sortRules rs, rfl⟩

/-- Claim C5 counterexample: on `";;"` — an input with no non-empty
segments — `parse_rules` does not raise `EmptyRuleSet`; it returns the
empty rule list. -/
theorem C5_counterexample_semicolons : parse_rules ";;" = Except.ok [] := rfl

/-! ### Theorems about the non-working-date set -/

theorem mkDate?_eq_some {y m d : Nat} {x : Date} :
    mkDate? y m d = some x ↔ dateValid ⟨y, m, d⟩ ∧ x = ⟨y, m, d⟩ := by
  unfold mkDate?
  by_cases hv : dateValid ⟨y, m, d⟩
  · rw [if_pos hv]
    constructor
    · intro h
      exact ⟨hv, (Option.some.inj h).symm⟩
    · rintro ⟨_, rfl⟩
      rfl
  · rw [if_neg hv]
    constructor
    · intro h
      cases h
    · rintro ⟨hc, _⟩
      exact absurd hc hv

theorem mem_enumFrom_le {α : Type} :
    ∀ (l : List α) (n : Nat) (p : Nat × α), p ∈ l.enumFrom n → n ≤ p.1
  | [], n, p => by
    intro h
    simp [List.enumFrom] at h
  | a :: l, n, p => by
    intro h
    rcases List.mem_cons.mp h with rfl | hmem
    · exact le_refl n
    · have := mem_enumFrom_le l (n + 1) p hmem
      omega

theorem enumFrom_fst_inj {α : Type} :
    ∀ (l : List α) (n : Nat) (p q : Nat × α), p ∈ l.enumFrom n →
      q ∈ l.enumFrom n → p.1 = q.1 → p = q
  | [], n, p, q => by
    intro hp _ _
    simp [List.enumFrom] at hp
  | a :: l, n, p, q => by
    intro hp hq heq
    rcases List.mem_cons.mp hp with rfl | hp' <;>
      rcases List.mem_cons.mp hq with h | hq'
    · rw [h]
    · have := mem_enumFrom_le l (n + 1) q hq'
      omega
    · have := mem_enumFrom_le l (n + 1) p hp'
      rw [h] at heq
      omega
    · exact enumFrom_fst_inj l (n + 1) p q hp' hq' heq

theorem foldDays_mem (y m : Nat) :
    ∀ (days : MonthMap) (acc s : Finset Date),
      days.foldlM (addDay y m) acc = some s →
      ∀ x : Date, x ∈ s ↔ (x ∈ acc ∨ ∃ dk ∈ days,
        (dk.2 = DayKind.holiday ∨ dk.2 = DayKind.dayoff) ∧
        mkDate? y m dk.1 = some x)
  | [], acc, s => by
    intro h x
    obtain rfl : acc = s := Option.some.inj h
    simp
  | dk :: days, acc, s => by
    intro h x
    rw [List.foldlM_cons] at h
    cases hstep : addDay y m acc dk with
    | none =>
      rw [hstep] at h
      cases h
    | some acc' =>
      rw [hstep] at h
      have ih := foldDays_mem y m days acc' s h
      unfold addDay at hstep
      by_cases hk : dk.2 = DayKind.holiday ∨ dk.2 = DayKind.dayoff
      · rw [if_pos hk] at hstep
        cases hmk : mkDate? y m dk.1 with
        | none =>
          rw [hmk] at hstep
          cases hstep
        | some dt =>
          rw [hmk] at hstep
          simp only [Option.map_some'] at hstep
          obtain rfl : insert dt acc = acc' := Option.some.inj hstep
          constructor
          · intro hx
            rcases (ih x).mp hx with hacc | ⟨dk', hdk', hk', hmk'⟩
            · rcases Finset.mem_insert.mp hacc with rfl | hacc'
              · exact Or.inr ⟨dk, List.mem_cons_self dk days, hk, hmk⟩
              · exact Or.inl hacc'
            · exact Or.inr ⟨dk', List.mem_cons_of_mem dk hdk', hk', hmk'⟩
          · intro hx
            apply (ih x).mpr
            rcases hx with hacc | ⟨dk', hdk', hk', hmk'⟩
            · exact Or.inl (Finset.mem_insert_of_mem hacc)
            · rcases List.mem_cons.mp hdk' with rfl | hmem
              · rw [hmk] at hmk'
                obtain rfl : dt = x := Option.some.inj hmk'
                exact Or.inl (Finset.mem_insert_self dt acc)
              · exact Or.inr ⟨dk', hmem, hk', hmk'⟩
      · rw [if_neg hk] at hstep
        obtain rfl : acc = acc' := Option.some.inj hstep
        constructor
        · intro hx
          rcases (ih x).mp hx with hacc | ⟨dk', hdk', hk', hmk'⟩
          · exact Or.inl hacc
          · exact Or.inr ⟨dk', List.mem_cons_of_mem dk hdk', hk', hmk'⟩
        · intro hx
          apply (ih x).mpr
          rcases hx with hacc | ⟨dk', hdk', hk', hmk'⟩
          · exact Or.inl hacc
          · rcases List.mem_cons.mp hdk' with rfl | hmem
            · exact absurd hk' hk
            · exact Or.inr ⟨dk', hmem, hk', hmk'⟩

theorem foldMonths_mem (y : Nat) :
    ∀ (ms : List (Nat × MonthMap)) (acc s : Finset Date),
      ms.foldlM (addMonth y) acc = some s →
      ∀ x : Date, x ∈ s ↔ (x ∈ acc ∨ ∃ im ∈ ms, ∃ dk ∈ im.2,
        (dk.2 = DayKind.holiday ∨ dk.2 = DayKind.dayoff) ∧
        mkDate? y im.1 dk.1 = some x)
  | [], acc, s => by
    intro h x
    obtain rfl : acc = s := Option.some.inj h
    simp
  | im :: ms, acc, s => by
    intro h x
    rw [List.foldlM_cons] at h
    cases hstep : addMonth y acc im with
    | none =>
      rw [hstep] at h
      cases h
    | some acc' =>
      rw [hstep] at h
      have ih := foldMonths_mem y ms acc' s h
      unfold addMonth at hstep
      have hacc' := foldDays_mem y im.1 im.2 acc acc' hstep
      constructor
      · intro hx
        rcases (ih x).mp hx with hm | ⟨im', him', rest⟩
        · rcases (hacc' x).mp hm with hacc | ⟨dk, hdk, hk, hmk⟩
          · exact Or.inl hacc
          · exact Or.inr ⟨im, List.mem_cons_self im ms, dk, hdk, hk, hmk⟩
        · exact Or.inr ⟨im', List.mem_cons_of_mem im him', rest⟩
      · intro hx
        apply (ih x).mpr
        rcases hx with hacc | ⟨im', him', dk, hdk, hk, hmk⟩
        · exact Or.inl ((hacc' x).mpr (Or.inl hacc))
        · rcases List.mem_cons.mp him' with rfl | hmem
          · exact Or.inl ((hacc' x).mpr (Or.inr ⟨dk, hdk, hk, hmk⟩))
          · exact Or.inr ⟨im', hmem, dk, hdk, hk, hmk⟩

theorem foldYears_mem :
    ∀ (mby : List (Nat × YearCalendar)) (acc s : Finset Date),
      mby.foldlM addYear acc = some s →
      ∀ x : Date, x ∈ s ↔ (x ∈ acc ∨ ∃ ym ∈ mby, ∃ im ∈ ym.2.enumFrom 1,
        ∃ dk ∈ im.2, (dk.2 = DayKind.holiday ∨ dk.2 = DayKind.dayoff) ∧
        mkDate? ym.1 im.1 dk.1 = some x)
  | [], acc, s => by
    intro h x
    obtain rfl : acc = s := Option.some.inj h
    simp
  | ym :: mby, acc, s => by
    intro h x
    rw [List.foldlM_cons] at h
    cases hstep : addYear acc ym with
    | none =>
      rw [hstep] at h
      cases h
    | some acc' =>
      rw [hstep] at h
      have ih := foldYears_mem mby acc' s h
      unfold addYear at hstep
      have hacc' := foldMonths_mem ym.1 (ym.2.enumFrom 1) acc acc' hstep
      constructor
      · intro hx
        rcases (ih x).mp hx with hm | ⟨ym', hym', rest⟩
        · rcases (hacc' x).mp hm with hacc | ⟨im, him, rest⟩
          · exact Or.inl hacc
          · exact Or.inr ⟨ym, List.mem_cons_self ym mby, im, him, rest⟩
        · exact Or.inr ⟨ym', List.mem_cons_of_mem ym hym', rest⟩
      · intro hx
        apply (ih x).mpr
        rcases hx with hacc | ⟨ym', hym', im, him, rest⟩
        · exact Or.inl ((hacc' x).mpr (Or.inl hacc))
        · rcases List.mem_cons.mp hym' with rfl | hmem
          · exact Or.inl ((hacc' x).mpr (Or.inr ⟨im, him, rest⟩))
          · exact Or.inr ⟨ym', hmem, im, him, rest⟩

/-- Membership in the built non-working set is exactly being recorded
as `holiday` or `dayoff`. -/
theorem build_non_working_dates_mem (mby : List (Nat × YearCalendar))
    (s : Finset Date) (h : build_non_working_dates mby = some s) (x : Date) :
    x ∈ s ↔ (RecordedWith mby x DayKind.holiday ∨
      RecordedWith mby x DayKind.dayoff) := by
  have hm := foldYears_mem mby ∅ s h x
  rw [hm]
  unfold RecordedWith
  constructor
  · intro hx
    rcases hx with hemp | ⟨ym, hym, im, him, dk, hdk, hk, hmk⟩
    · cases Finset.not_mem_empty x hemp
    · rcases hk with hk | hk
      · exact Or.inl ⟨ym, hym, im, him, dk, hdk, hk, hmk⟩
      · exact Or.inr ⟨ym, hym, im, him, dk, hdk, hk, hmk⟩
  · intro hx
    rcases hx with ⟨ym, hym, im, him, dk, hdk, hk, hmk⟩ |
      ⟨ym, hym, im, him, dk, hdk, hk, hmk⟩
    · exact Or.inr ⟨ym, hym, im, him, dk, hdk, Or.inl hk, hmk⟩
    · exact Or.inr ⟨ym, hym, im, him, dk, hdk, Or.inr hk, hmk⟩

/-- Claim C6: the built set holds exactly the dates recorded as
`holiday` or `dayoff`; with dict-like key uniqueness, a date recorded
as `shortened` is never in the set. -/
theorem C6_build_non_working_dates (mby : List (Nat × YearCalendar))
    (s : Finset Date)
    (hyears : (mby.map Prod.fst).Nodup)
    (hdaykeys : ∀ ym ∈ mby, ∀ im ∈ ym.2.enumFrom 1, (im.2.map Prod.fst).Nodup)
    (h : build_non_working_dates mby = some s) :
    (∀ x, x ∈ s ↔ (RecordedWith mby x DayKind.holiday ∨
      RecordedWith mby x DayKind.dayoff)) ∧
    (∀ x, RecordedWith mby x DayKind.shortened → x ∉ s) := by
  refine ⟨build_non_working_dates_mem mby s h, ?_⟩
  rintro x ⟨ym', hym', im', him', dk', hdk', hk', hmk'⟩ hx
  have hrec := (build_non_working_dates_mem mby s h x).mp hx
  obtain ⟨ym, hym, im, him, dk, hdk, hk, hmk⟩ :
      ∃ ym ∈ mby, ∃ im ∈ ym.2.enumFrom 1, ∃ dk ∈ im.2,
        (dk.2 = DayKind.holiday ∨ dk.2 = DayKind.dayoff) ∧
        mkDate? ym.1 im.1 dk.1 = some x := by
    rcases hrec with ⟨ym, hym, im, him, dk, hdk, hk, hmk⟩ |
      ⟨ym, hym, im, him, dk, hdk, hk, hmk⟩
    · exact ⟨ym, hym, im, him, dk, hdk, Or.inl hk, hmk⟩
    · exact ⟨ym, hym, im, him, dk, hdk, Or.inr hk, hmk⟩
  obtain ⟨hv, hxe⟩ := mkDate?_eq_some.mp hmk
  obtain ⟨hv', hxe'⟩ := mkDate?_eq_some.mp hmk'
  rw [hxe'] at hxe
  have hy : ym'.1 = ym.1 := by
    have := congrArg Date.year hxe
    exact this
  have hm : im'.1 = im.1 := congrArg Date.month hxe
  have hd : dk'.1 = dk.1 := congrArg Date.day hxe
  have hym_eq : ym' = ym := List.inj_on_of_nodup_map hyears hym' hym hy
  rw [hym_eq] at him'
  have him_eq : im' = im := enumFrom_fst_inj ym.2 1 im' im him' him hm
  rw [him_eq] at hdk'
  have hdk_eq : dk' = dk :=
    List.inj_on_of_nodup_map (hdaykeys ym hym im him) hdk' hdk hd
  rw [hdk_eq] at hk'
  rcases hk with hkk | hkk <;> rw [hkk] at hk' <;> cases hk'

/-- Witness for C6 on a concrete two-entry calendar with a `shortened`
entry. -/
theorem C6_build_non_working_dates_witness :
    ∃ s,
      build_non_working_dates
        [(2024, [[(1, DayKind.holiday)], [], [], [(30, DayKind.shortened)],
          [], [], [], [], [], [], [], [(31, DayKind.dayoff)]])] = some s ∧
      ((⟨2024, 1, 1⟩ : Date) ∈ s ↔
        (RecordedWith
          [(2024, [[(1, DayKind.holiday)], [], [], [(30, DayKind.shortened)],
            [], [], [], [], [], [], [], [(31, DayKind.dayoff)]])]
          ⟨2024, 1, 1⟩ DayKind.holiday ∨
         RecordedWith
          [(2024, [[(1, DayKind.holiday)], [], [], [(30, DayKind.shortened)],
            [], [], [], [], [], [], [], [(31, DayKind.dayoff)]])]
          ⟨2024, 1, 1⟩ DayKind.dayoff)) ∧
      (RecordedWith
          [(2024, [[(1, DayKind.holiday)], [], [], [(30, DayKind.shortened)],
            [], [], [], [], [], [], [], [(31, DayKind.dayoff)]])]
          ⟨2024, 4, 30⟩ DayKind.shortened →
        (⟨2024, 4, 30⟩ : Date) ∉ s) :=
  ⟨{⟨2024, 12, 31⟩, ⟨2024, 1, 1⟩}, by decide,
    (C6_build_non_working_dates _ _ (by decide) (by decide) (by decide)).1
      ⟨2024, 1, 1⟩,
    fun hrec =>
      (C6_build_non_working_dates _ _ (by decide) (by decide) (by decide)).2
        ⟨2024, 4, 30⟩ hrec⟩

theorem foldDays_total (y m : Nat) :
    ∀ (days : MonthMap) (acc : Finset Date),
      (∀ dk ∈ days, (mkDate? y m dk.1).isSome = true) →
      ∃ s, days.foldlM (addDay y m) acc = some s
  | [], acc => fun _ => ⟨acc, rfl⟩
  | dk :: days, acc => by
    intro hval
    have h1 := hval dk (List.mem_cons_self dk days)
    have htail : ∀ dk' ∈ days, (mkDate? y m dk'.1).isSome = true :=
      fun dk' hd => hval dk' (List.mem_cons_of_mem dk hd)
    by_cases hk : dk.2 = DayKind.holiday ∨ dk.2 = DayKind.dayoff
    · cases hmk : mkDate? y m dk.1 with
      | none =>
        rw [hmk] at h1
        cases h1
      | some dt =>
        obtain ⟨s, hs⟩ := foldDays_total y m days (insert dt acc) htail
        refine ⟨s, ?_⟩
        rw [List.foldlM_cons]
        unfold addDay
        rw [if_pos hk, hmk]
        exact hs
    · obtain ⟨s, hs⟩ := foldDays_total y m days acc htail
      refine ⟨s, ?_⟩
      rw [List.foldlM_cons]
      unfold addDay
      rw [if_neg hk]
      exact hs

theorem foldMonths_total (y : Nat) :
    ∀ (ms : List (Nat × MonthMap)) (acc : Finset Date),
      (∀ im ∈ ms, ∀ dk ∈ im.2, (mkDate? y im.1 dk.1).isSome = true) →
      ∃ s, ms.foldlM (addMonth y) acc = some s
  | [], acc => fun _ => ⟨acc, rfl⟩
  | im :: ms, acc => by
    intro hval
    obtain ⟨acc', hacc'⟩ := foldDays_total y im.1 im.2 acc
      (hval im (List.mem_cons_self im ms))
    obtain ⟨s, hs⟩ := foldMonths_total y ms acc'
      (fun im' hm dk hd => hval im' (List.mem_cons_of_mem im hm) dk hd)
    refine ⟨s, ?_⟩
    rw [List.foldlM_cons]
    unfold addMonth
    rw [hacc']
    exact hs

theorem foldYears_total :
    ∀ (mby : List (Nat × YearCalendar)) (acc : Finset Date),
      (∀ ym ∈ mby, ∀ im ∈ ym.2.enumFrom 1, ∀ dk ∈ im.2,
        (mkDate? ym.1 im.1 dk.1).isSome = true) →
      ∃ s, mby.foldlM addYear acc = some s
  | [], acc => fun _ => ⟨acc, rfl⟩
  | ym :: mby, acc => by
    intro hval
    obtain ⟨acc', hacc'⟩ := foldMonths_total ym.1 (ym.2.enumFrom 1) acc
      (hval ym (List.mem_cons_self ym mby))
    obtain ⟨s, hs⟩ := foldYears_total mby acc'
      (fun ym' hm im hi dk hd => hval ym' (List.mem_cons_of_mem ym hm) im hi dk hd)
    refine ⟨s, ?_⟩
    rw [List.foldlM_cons]
    unfold addYear
    rw [hacc']
    exact hs

/-- Claim C10: when every recorded (year, month position, day) triple
denotes an existing date — the function itself performs no validation —
`build_non_working_dates` returns a set; the date-construction failure
branch is unreachable. -/
theorem C10_build_non_working_dates_total (mby : List (Nat × YearCalendar))
    (h12 : ∀ ym ∈ mby, ym.2.length = 12)
    (hvalid : ∀ ym ∈ mby, ∀ im ∈ ym.2.enumFrom 1, ∀ dk ∈ im.2,
      (mkDate? ym.1 im.1 dk.1).isSome = true) :
    ∃ s, build_non_working_dates mby = some s :=
  foldYears_total mby ∅ hvalid

/-- Witness for C10 on a concrete one-year calendar. -/
theorem C10_build_non_working_dates_total_witness :
    ∃ s,
      build_non_working_dates
        [(2023, [[(2, DayKind.dayoff)], [], [], [], [], [], [], [],
          [], [], [], [(31, DayKind.holiday)]])] = some s :=
  C10_build_non_working_dates_total _ (by decide) (by decide)

/-! ### Theorems about event generation -/

/-- Claim C3: the event identifier depends only on the intended
(unshifted) year, month, day-of-month and label: two generations from
the same intended date and label, with arbitrary different non-working
sets, coverage sets, fuels, and hence different shifted actual dates,
produce identical identifiers. -/
theorem C3_uid_noninterference (base_year base_month base_day : Nat)
    (label : String) (nw₁ nw₂ : Finset Date) (cov₁ cov₂ : Finset Nat)
    (fuel₁ fuel₂ : Nat) (r₁ r₂ : Date)
    (h₁ : shift_to_previous_working_day fuel₁ ⟨base_year, base_month, base_day⟩
      nw₁ cov₁ = some r₁)
    (h₂ : shift_to_previous_working_day fuel₂ ⟨base_year, base_month, base_day⟩
      nw₂ cov₂ = some r₂) :
    (make_salary_event base_year base_month base_day r₁ label).uid =
      (make_salary_event base_year base_month base_day r₂ label).uid := rfl

/-- Witness for C3: the same intended date 2024-01-05 and label under
two different non-working sets, shifting to two different actual days,
still gets the same identifier. -/
theorem C3_uid_noninterference_witness :
    (make_salary_event 2024 1 5 ⟨2024, 1, 5⟩ "Salary").uid =
      (make_salary_event 2024 1 5 ⟨2024, 1, 4⟩ "Salary").uid :=
  C3_uid_noninterference 2024 1 5 "Salary" ∅ {⟨2024, 1, 5⟩} {2024} {2024}
    1 2 ⟨2024, 1, 5⟩ ⟨2024, 1, 4⟩ (by decide) (by decide)

theorem collectEvents_spec (fuel year : Nat) (nw : Finset Date)
    (cov : Finset Nat) :
    ∀ ps : List (Nat × Nat × String),
      (∀ p ∈ ps, ((mkDate? year p.1 p.2.1).bind
        (shiftAux nw cov fuel)).isSome = (mkDate? year p.1 p.2.1).isSome) →
      ∃ es, collectEvents fuel year nw cov ps = some es ∧
        es.length =
          (ps.filter (fun p => (mkDate? year p.1 p.2.1).isSome)).length
  | [] => fun _ => ⟨[], rfl, rfl⟩
  | p :: ps => by
    intro hval
    obtain ⟨es, hes, hlen⟩ := collectEvents_spec fuel year nw cov ps
      (fun q hq => hval q (List.mem_cons_of_mem p hq))
    cases hmk : mkDate? year p.1 p.2.1 with
    | none =>
      have hgp : genPair fuel year nw cov p = some [] := by
        unfold genPair
        rw [hmk]
      refine ⟨es, ?_, ?_⟩
      · unfold collectEvents
        rw [hgp, hes]
        simp
      · rw [hlen]
        congr 1
        simp [List.filter_cons, hmk]
    | some b =>
      have hsh := hval p (List.mem_cons_self p ps)
      rw [hmk] at hsh
      simp only [Option.some_bind, Option.isSome_some] at hsh
      cases hsa : shiftAux nw cov fuel b with
      | none =>
        rw [hsa] at hsh
        cases hsh
      | some a =>
        have hgp : genPair fuel year nw cov p =
            some [make_salary_event year p.1 p.2.1 a p.2.2] := by
          unfold genPair
          rw [hmk]
          dsimp only
          rw [hsa]
        refine ⟨make_salary_event year p.1 p.2.1 a p.2.2 :: es, ?_, ?_⟩
        · unfold collectEvents
          rw [hgp, hes]
          simp
        · simp only [List.filter_cons, hmk, Option.isSome_some, if_true,
            List.length_cons, hlen]

/-- Claim C8: for every (month, rule) combination whose day-of-month
does not exist in that month the generator produces no event and no
error; for every combination whose intended date exists it produces
exactly one event; and — as long as the shifter itself returns (the
only possible non-result, modelled by the fuel) — the generator as a
whole raises nothing and returns an event list whose length is exactly
the number of existing (month, rule) dates. -/
theorem C8_generate_salary_events (fuel year : Nat) (nw : Finset Date)
    (cov : Finset Nat) (rules : List (Nat × String))
    (hshift : ∀ p ∈ monthRulePairs rules,
      ((mkDate? year p.1 p.2.1).bind (shiftAux nw cov fuel)).isSome =
        (mkDate? year p.1 p.2.1).isSome) :
    (∀ p ∈ monthRulePairs rules, mkDate? year p.1 p.2.1 = none →
      genPair fuel year nw cov p = some []) ∧
    (∀ p ∈ monthRulePairs rules, (mkDate? year p.1 p.2.1).isSome = true →
      ∃ e, genPair fuel year nw cov p = some [e]) ∧
    (∃ es, generate_salary_events fuel year nw cov rules = some es ∧
      es.length =
        ((monthRulePairs rules).filter
          (fun p => (mkDate? year p.1 p.2.1).isSome)).length) := by
  refine ⟨?_, ?_, ?_⟩
  · intro p _ hmk
    unfold genPair
    rw [hmk]
  · intro p hp hmk
    cases hb : mkDate? year p.1 p.2.1 with
    | none =>
      rw [hb] at hmk
      cases hmk
    | some b =>
      have hsh := hshift p hp
      rw [hb] at hsh
      simp only [Option.some_bind, Option.isSome_some] at hsh
      cases hsa : shiftAux nw cov fuel b with
      | none =>
        rw [hsa] at hsh
        cases hsh
      | some a =>
        refine ⟨make_salary_event year p.1 p.2.1 a p.2.2, ?_⟩
        unfold genPair
        rw [hb]
        dsimp only
        rw [hsa]
  · exact collectEvents_spec fuel year nw cov (monthRulePairs rules) hshift

/-! ### UID uniqueness within one run -/

theorem pad2_data (n : Nat) (h : n ≤ 99) :
    (pad2 n).data = [Nat.digitChar (n / 10), Nat.digitChar (n % 10)] := by
  interval_cases n <;> rfl

theorem digitChar_inj_lt10 :
    ∀ a < 10, ∀ b < 10, Nat.digitChar a = Nat.digitChar b → a = b := by
  decide

/-- Within one year, equal UIDs force equal month, equal day and equal
sanitized label. -/
theorem make_uid_inj {year m1 d1 m2 d2 : Nat} {s1 s2 : String}
    (hm1 : m1 ≤ 99) (hd1 : d1 ≤ 99) (hm2 : m2 ≤ 99) (hd2 : d2 ≤ 99)
    (h : make_uid year m1 d1 s1 = make_uid year m2 d2 s2) :
    m1 = m2 ∧ d1 = d2 ∧ sanitizeSummary s1 = sanitizeSummary s2 := by
  unfold make_uid at h
  have h' := congrArg String.data h
  simp only [String.data_append, List.append_assoc] at h'
  rw [pad2_data m1 hm1, pad2_data d1 hd1, pad2_data m2 hm2,
    pad2_data d2 hd2] at h'
  simp only [List.cons_append, List.nil_append] at h'
  simp only [List.cons.injEq, true_and] at h'
  have h2 := List.append_cancel_left h'
  simp only [List.cons.injEq, true_and] at h2
  obtain ⟨e1, e2, e3, e4, e5⟩ := h2
  have hm : m1 = m2 := by
    have q1 := digitChar_inj_lt10 (m1 / 10) (by omega) (m2 / 10) (by omega) e1
    have q2 := digitChar_inj_lt10 (m1 % 10) (by omega) (m2 % 10) (by omega) e2
    omega
  have hd : d1 = d2 := by
    have q1 := digitChar_inj_lt10 (d1 / 10) (by omega) (d2 / 10) (by omega) e3
    have q2 := digitChar_inj_lt10 (d1 % 10) (by omega) (d2 % 10) (by omega) e4
    omega
  have hsan : sanitizeSummary s1 = sanitizeSummary s2 :=
    String.ext (List.append_cancel_right e5)
  exact ⟨hm, hd, hsan⟩

/-- Every event a pair contributes carries that pair's UID, and a pair
contributes at most one event. -/
theorem genPair_uid (fuel year : Nat) (nw : Finset Date) (cov : Finset Nat)
    (p : Nat × Nat × String) (l : List SEvent)
    (h : genPair fuel year nw cov p = some l) :
    (∀ e ∈ l, e.uid = pairUid year p) ∧ l.length ≤ 1 := by
  unfold genPair at h
  cases hmk : mkDate? year p.1 p.2.1 with
  | none =>
    rw [hmk] at h
    obtain rfl : [] = l := Option.some.inj h
    exact ⟨fun e he => absurd he (List.not_mem_nil e), by simp⟩
  | some b =>
    rw [hmk] at h
    dsimp only at h
    cases hsa : shiftAux nw cov fuel b with
    | none =>
      rw [hsa] at h
      cases h
    | some a =>
      rw [hsa] at h
      obtain rfl : [make_salary_event year p.1 p.2.1 a p.2.2] = l :=
        Option.some.inj h
      refine ⟨?_, by simp⟩
      intro e he
      obtain rfl : e = make_salary_event year p.1 p.2.1 a p.2.2 := by
        simpa using he
      rfl

theorem collectEvents_uids (fuel year : Nat) (nw : Finset Date)
    (cov : Finset Nat) :
    ∀ (ps : List (Nat × Nat × String)) (es : List SEvent),
      collectEvents fuel year nw cov ps = some es →
      ∀ e ∈ es, ∃ p ∈ ps, e.uid = pairUid year p
  | [], es => by
    intro h e he
    obtain rfl : ([] : List SEvent) = es := Option.some.inj h
    cases he
  | p :: ps, es => by
    intro h e he
    unfold collectEvents at h
    cases hgp : genPair fuel year nw cov p with
    | none =>
      rw [hgp] at h
      cases h
    | some l =>
      rw [hgp] at h
      dsimp only at h
      cases hce : collectEvents fuel year nw cov ps with
      | none =>
        rw [hce] at h
        cases h
      | some rest =>
        rw [hce] at h
        obtain rfl : l ++ rest = es := Option.some.inj h
        rcases List.mem_append.mp he with hl | hr
        · exact ⟨p, List.mem_cons_self p ps,
            (genPair_uid fuel year nw cov p l hgp).1 e hl⟩
        · obtain ⟨q, hq, hu⟩ :=
            collectEvents_uids fuel year nw cov ps rest hce e hr
          exact ⟨q, List.mem_cons_of_mem p hq, hu⟩

theorem collectEvents_nodup (fuel year : Nat) (nw : Finset Date)
    (cov : Finset Nat) :
    ∀ (ps : List (Nat × Nat × String)) (es : List SEvent),
      List.Pairwise (fun p q => pairUid year p ≠ pairUid year q) ps →
      collectEvents fuel year nw cov ps = some es →
      (es.map SEvent.uid).Nodup
  | [], es => by
    intro _ h
    obtain rfl : ([] : List SEvent) = es := Option.some.inj h
    simp
  | p :: ps, es => by
    intro hpw h
    obtain ⟨hhead, htail⟩ := List.pairwise_cons.mp hpw
    unfold collectEvents at h
    cases hgp : genPair fuel year nw cov p with
    | none =>
      rw [hgp] at h
      cases h
    | some l =>
      rw [hgp] at h
      dsimp only at h
      cases hce : collectEvents fuel year nw cov ps with
      | none =>
        rw [hce] at h
        cases h
      | some rest =>
        rw [hce] at h
        obtain rfl : l ++ rest = es := Option.some.inj h
        have ih := collectEvents_nodup fuel year nw cov ps rest htail hce
        rw [List.map_append, List.nodup_append]
        obtain ⟨hluid, hlen⟩ := genPair_uid fuel year nw cov p l hgp
        refine ⟨?_, ih, ?_⟩
        · cases l with
          | nil => simp
          | cons e l' =>
            cases l' with
            | nil => simp
            | cons e' l'' => simp at hlen
        · intro u hu1 hu2
          obtain ⟨e1, he1, rfl⟩ := List.mem_map.mp hu1
          obtain ⟨e2, he2, hequ⟩ := List.mem_map.mp hu2
          obtain ⟨q, hq, hq2⟩ :=
            collectEvents_uids fuel year nw cov ps rest hce e2 he2
          apply hhead q hq
          rw [← hluid e1 he1, ← hequ]
          exact hq2

/-- Pairwise distinctness lifts through `flatMap`. -/
theorem pairwise_flatMap_of {α β : Type} (f : α → List β) (R : β → β → Prop)
    (S : α → α → Prop) :
    ∀ l : List α, (∀ a ∈ l, (f a).Pairwise R) →
      (∀ a ∈ l, ∀ b ∈ l, S a b → ∀ x ∈ f a, ∀ y ∈ f b, R x y) →
      l.Pairwise S → (l.flatMap f).Pairwise R
  | [] => by
    intro _ _ _
    simp
  | a :: l => by
    intro hin hacross hpw
    obtain ⟨hhead, htail⟩ := List.pairwise_cons.mp hpw
    rw [List.flatMap_cons, List.pairwise_append]
    refine ⟨hin a (List.mem_cons_self a l), ?_, ?_⟩
    · exact pairwise_flatMap_of f R S l
        (fun b hb => hin b (List.mem_cons_of_mem a hb))
        (fun b hb c hc => hacross b (List.mem_cons_of_mem a hb) c
          (List.mem_cons_of_mem a hc))
        htail
    · intro x hx y hy
      obtain ⟨b, hb, hyb⟩ := List.mem_flatMap.mp hy
      exact hacross a (List.mem_cons_self a l) b (List.mem_cons_of_mem a hb)
        (hhead b hb) x hx y hyb

theorem monthRulePairs_pairwise (year : Nat) (rules : List (Nat × String))
    (hdays : ∀ r ∈ rules, 1 ≤ r.1 ∧ r.1 ≤ 31)
    (hkeys : rules.Pairwise (fun r1 r2 => ruleKey r1 ≠ ruleKey r2)) :
    (monthRulePairs rules).Pairwise
      (fun p q => pairUid year p ≠ pairUid year q) := by
  unfold monthRulePairs
  apply pairwise_flatMap_of _ _ (fun (m1 m2 : Nat) => m1 ≠ m2)
  · intro m hm
    rw [List.pairwise_map]
    refine hkeys.imp_of_mem ?_
    intro r1 r2 h1 h2 hne hcon
    obtain ⟨hb1, hb2⟩ := hdays r1 h1
    obtain ⟨hb3, hb4⟩ := hdays r2 h2
    have hmle : m ≤ 12 := by
      rcases List.mem_range'.mp hm with ⟨i, hi, rfl⟩
      omega
    dsimp only [pairUid] at hcon
    obtain ⟨_, hdd, hss⟩ := make_uid_inj (by omega) (by omega) (by omega)
      (by omega) hcon
    apply hne
    unfold ruleKey
    rw [hdd, hss]
  · intro m1 hm1 m2 hm2 hne p hp q hq hcon
    obtain ⟨r1, hr1, rfl⟩ := List.mem_map.mp hp
    obtain ⟨r2, hr2, rfl⟩ := List.mem_map.mp hq
    obtain ⟨hb1, hb2⟩ := hdays r1 hr1
    obtain ⟨hb3, hb4⟩ := hdays r2 hr2
    have hm1le : m1 ≤ 12 := by
      rcases List.mem_range'.mp hm1 with ⟨i, hi, rfl⟩
      omega
    have hm2le : m2 ≤ 12 := by
      rcases List.mem_range'.mp hm2 with ⟨i, hi, rfl⟩
      omega
    dsimp only [pairUid] at hcon
    obtain ⟨hmm, _, _⟩ := make_uid_inj (by omega) (by omega) (by omega)
      (by omega) hcon
    exact hne hmm
  · exact List.nodup_range' 1 12 1 (by omega)

/-- Claim C4 (amended): within one run all event identifiers are
pairwise distinct, provided no two rules agree on both day-of-month and
sanitized label (duplicate-day rules whose labels sanitize identically
do collide, see the counterexample). -/
theorem C4_uid_nodup (fuel year : Nat) (nw : Finset Date) (cov : Finset Nat)
    (rules : List (Nat × String)) (es : List SEvent)
    (hdays : ∀ r ∈ rules, 1 ≤ r.1 ∧ r.1 ≤ 31)
    (hkeys : rules.Pairwise (fun r1 r2 => ruleKey r1 ≠ ruleKey r2))
    (h : generate_salary_events fuel year nw cov rules = some es) :
    (es.map SEvent.uid).Nodup :=
  collectEvents_nodup fuel year nw cov (monthRulePairs rules) es
    (monthRulePairs_pairwise year rules hdays hkeys) h

/-- Claim C4 counterexample: with the duplicate-day rules
`5:Pay!` and `5:Pay?` — both labels sanitize to `pay` — the run
succeeds and its event identifier list has duplicates. -/
theorem C4_counterexample_duplicate_uids :
    (generate_salary_events 1 2024 ∅ {2024}
      [(5, "Pay!"), (5, "Pay?")]).isSome = true ∧
    ¬ ((((generate_salary_events 1 2024 ∅ {2024}
      [(5, "Pay!"), (5, "Pay?")]).getD []).map SEvent.uid).Nodup) := by
  constructor
  · decide
  · decide

/-- Witness for the amended C4 on the default rule set
`5:Salary;20:Mid-month pay`. -/
theorem C4_uid_nodup_witness :
    ∃ es, generate_salary_events 1 2024 ∅ {2024}
      [(5, "Salary"), (20, "Mid-month pay")] = some es ∧
      (es.map SEvent.uid).Nodup := by
  have hgen : generate_salary_events 1 2024 ∅ {2024}
      [(5, "Salary"), (20, "Mid-month pay")] =
      some ((generate_salary_events 1 2024 ∅ {2024}
        [(5, "Salary"), (20, "Mid-month pay")]).getD []) := by decide
  exact ⟨_, hgen,
    C4_uid_nodup 1 2024 ∅ {2024} [(5, "Salary"), (20, "Mid-month pay")] _
      (by decide) (by decide) hgen⟩

/-- Witness for C8: a rule for day 31 over year 2024 produces exactly
seven events (the seven 31-day months); April and the other short
months contribute none. -/
theorem C8_generate_salary_events_witness :
    (∀ p ∈ monthRulePairs [(31, "Pay")], mkDate? 2024 p.1 p.2.1 = none →
      genPair 1 2024 ∅ {2024} p = some []) ∧
    (∀ p ∈ monthRulePairs [(31, "Pay")],
      (mkDate? 2024 p.1 p.2.1).isSome = true →
      ∃ e, genPair 1 2024 ∅ {2024} p = some [e]) ∧
    (∃ es, generate_salary_events 1 2024 ∅ {2024} [(31, "Pay")] = some es ∧
      es.length =
        ((monthRulePairs [(31, "Pay")]).filter
          (fun p => (mkDate? 2024 p.1 p.2.1).isSome)).length) :=
  C8_generate_salary_events 1 2024 ∅ {2024} [(31, "Pay")] (by decide)

end SalaryIcs
